import Mathlib

/-!
# Verification of the VibeScope QM9S preprocessing pipeline

Shallow embedding of `apps/vibescope/scripts/preprocess_qm9s.py`.

Conventions of the embedding:
* Python floats parsed from the input files and produced by `np.linalg.eigh`
  are exact rational numbers, so they are modelled as `ℚ`.
* Floating-point arithmetic is idealised as exact arithmetic; `math`/NumPy
  square roots are idealised as `Real.sqrt`, so every value downstream of a
  square root lives in `ℝ`.
* `np.linalg.eigh` is an external LAPACK routine (not code of this
  repository); following the usual convention for external libraries, the
  functions that consume its results take the eigenvalue list (ascending)
  and the list of eigenvector columns as inputs.
* Python dict lookups `d[k]` that can raise `KeyError` are modelled with
  `Option`/`Except`; `d.get(k, v)` is modelled with `Option.getD`.
-/

namespace Vibescope

/-- Conversion constant `EV_TO_CM = 521.470898` (sqrt(eV/(Å²·amu)) → cm⁻¹). -/
def EV_TO_CM : ℚ := 521.470898

/-- `ATOMIC_MASSES` dict from the script, as an association list. -/
def ATOMIC_MASSES : List (ℕ × ℚ) :=
  [(1, 1.008), (6, 12.011), (7, 14.007), (8, 15.999), (9, 18.998),
   (16, 32.065), (17, 35.453)]

/-- `ELEMENT_SYMBOLS` dict from the script. -/
def ELEMENT_SYMBOLS : List (ℕ × String) :=
  [(1, "H"), (6, "C"), (7, "N"), (8, "O"), (9, "F"), (16, "S"), (17, "Cl")]

/-- `COVALENT_RADII` dict from the script (Å). -/
def COVALENT_RADII : List (ℕ × ℚ) :=
  [(1, 0.31), (6, 0.76), (7, 0.71), (8, 0.66), (9, 0.57), (16, 1.05), (17, 1.02)]

/-- `BOND_TOLERANCE = 0.45` Å. -/
def BOND_TOLERANCE : ℚ := 0.45

/-- `BOND_LENGTH_DOUBLE` dict from the script, keyed by sorted element pairs. -/
def BOND_LENGTH_DOUBLE : List ((ℕ × ℕ) × ℚ) :=
  [((6, 6), 1.34), ((6, 7), 1.29), ((6, 8), 1.21), ((7, 7), 1.25), ((7, 8), 1.24)]

/-- `ATOMIC_MASSES[z]`: `some` mass when the atomic number is mapped,
`none` models the `KeyError` raised for an unmapped atomic number. -/
def massOf (z : ℕ) : Option ℚ := ATOMIC_MASSES.lookup z

/-- `COVALENT_RADII.get(z, 1.0)`: covalent radius with fallback 1.0 Å. -/
def radiusOf (z : ℕ) : ℚ := (COVALENT_RADII.lookup z).getD 1

/-- `ELEMENT_SYMBOLS.get(z, "?")`. -/
def symbolOf (z : ℕ) : String := (ELEMENT_SYMBOLS.lookup z).getD "?"

/-- `BOND_LENGTH_DOUBLE.get(tuple(sorted([z1, z2])))`. -/
def doubleLengthOf (z1 z2 : ℕ) : Option ℚ :=
  BOND_LENGTH_DOUBLE.lookup (min z1 z2, max z1 z2)

/-- A 3-vector of rationals (a row of an N×3 NumPy array of floats). -/
abbrev Vec3 := ℚ × ℚ × ℚ

/-- A 3-vector of reals (displacement rows after un-mass-weighting). -/
abbrev Vec3R := ℝ × ℝ × ℝ

/-- A 3×3 matrix of rationals, as three rows (a reshaped dipole-derivative
block `dipole_derivs[i]`). -/
abbrev Mat3 := Vec3 × Vec3 × Vec3

/-- Squared Euclidean distance between two positions (exact, rational). -/
def distSq (p q : Vec3) : ℚ :=
  (p.1 - q.1) ^ 2 + (p.2.1 - q.2.1) ^ 2 + (p.2.2 - q.2.2) ^ 2

/-- `np.linalg.norm(positions[i] - positions[j])`, idealised as the real
square root of the (rational) squared distance. -/
noncomputable def dist (p q : Vec3) : ℝ := Real.sqrt (distSq p q)

/-- The comparison `dist < t` that the script performs is equivalent to the
rational comparison `distSq < t²` whenever the threshold `t` is positive;
the executable definitions below branch on the squared form. -/
theorem dist_lt_iff (p q : Vec3) (t : ℚ) (ht : 0 < t) :
    dist p q < (t : ℝ) ↔ distSq p q < t ^ 2 := by
  have h1 : (0 : ℝ) < (t : ℝ) := by exact_mod_cast ht
  rw [dist, Real.sqrt_lt' h1]
  exact_mod_cast Iff.rfl

/-- `check_linearity(n_atoms, eigenvalues)` (lines 210–220): a molecule with
`n_atoms ≤ 2` is linear by definition; with fewer than 6 eigenvalues it is
treated as linear; otherwise it is linear iff the 6th-smallest eigenvalue
magnitude (`np.sort(np.abs(eigenvalues))[5]`) is below the 0.001 threshold. -/
def check_linearity (n_atoms : ℕ) (eigenvalues : List ℚ) : Bool :=
  if n_atoms ≤ 2 then true
  else
    let sorted_eigs := (eigenvalues.map (fun e => |e|)).insertionSort (· ≤ ·)
    if sorted_eigs.length < 6 then true
    else decide (sorted_eigs.getD 5 0 < 0.001)

/-- A bond record `{"atom1": i, "atom2": j, "order": order}`. -/
structure Bond where
  atom1 : ℕ
  atom2 : ℕ
  order : ℕ
  deriving DecidableEq, Repr

/-- `estimate_bond_order(z1, z2, dist)` (lines 240–246).  The script compares
the distance itself (`dist < double_len + 0.10`); this definition receives the
squared distance and compares against the squared threshold, which is
equivalent for the positive thresholds involved (`dist_lt_iff`).  The guard
`d ≠ 0` models Python's truthiness test `if double_len and …`. -/
def estimate_bond_order (z1 z2 : ℕ) (dist_sq : ℚ) : ℕ :=
  match doubleLengthOf z1 z2 with
  | some d => if d ≠ 0 ∧ dist_sq < (d + 0.10) ^ 2 then 2 else 1
  | none => 1

/-- `detect_bonds(positions, atomic_numbers)` (lines 223–237): for every pair
`i < j`, emit a bond iff the interatomic distance is strictly below the sum of
covalent radii (fallback 1.0 Å) plus `BOND_TOLERANCE`; the distance comparison
is carried in squared form (`dist_lt_iff`). -/
def detect_bonds (positions : List Vec3) (atomic_numbers : List ℕ) : List Bond :=
  ((List.range atomic_numbers.length).map (fun i =>
    ((List.range atomic_numbers.length).filter (fun j => i < j)).filterMap (fun j =>
      if distSq (positions.getD i (0, 0, 0)) (positions.getD j (0, 0, 0)) <
           (radiusOf (atomic_numbers.getD i 0) + radiusOf (atomic_numbers.getD j 0)
             + BOND_TOLERANCE) ^ 2
      then some ⟨i, j, estimate_bond_order (atomic_numbers.getD i 0)
                         (atomic_numbers.getD j 0)
                         (distSq (positions.getD i (0, 0, 0)) (positions.getD j (0, 0, 0)))⟩
      else none))).flatten

/-- Eigenvalue → signed frequency (lines 176–182):
`np.where(eigenvalues >= 0, EV_TO_CM*sqrt(|λ|), -EV_TO_CM*sqrt(|λ|))`. -/
noncomputable def freqOfEig (ev : ℚ) : ℝ :=
  if 0 ≤ ev then (EV_TO_CM : ℝ) * Real.sqrt |(ev : ℝ)|
  else -((EV_TO_CM : ℝ) * Real.sqrt |(ev : ℝ)|)

/-- Euclidean norm of one displacement row (`np.linalg.norm(…, axis=1)`). -/
noncomputable def vnormR (v : Vec3R) : ℝ :=
  Real.sqrt (v.1 ^ 2 + v.2.1 ^ 2 + v.2.2 ^ 2)

/-- `atom_magnitudes.max()`: maximum of a list of magnitudes.  The fold base 0
agrees with NumPy's max on the nonempty lists of nonnegative magnitudes the
script takes maxima of. -/
noncomputable def maxMag (l : List ℝ) : ℝ := l.foldr max 0

open Classical in
/-- Mode normalization (lines 200–206): when the maximum per-atom magnitude
satisfies `max_mag > 1e-10`, divide the whole N×3 matrix by it; otherwise the
matrix is left unchanged. -/
noncomputable def normalizeMode (disp : List Vec3R) : List Vec3R :=
  let atom_magnitudes := disp.map vnormR
  let max_mag := maxMag atom_magnitudes
  if 1e-10 < max_mag then
    disp.map (fun v => (v.1 / max_mag, v.2.1 / max_mag, v.2.2 / max_mag))
  else disp

/-- `np.repeat(masses, 3)`: each atomic mass repeated once per Cartesian axis. -/
def massVec (masses : List ℚ) : List ℚ :=
  (masses.map (fun m => [m, m, m])).flatten

/-- Reshape a flat 3N-vector into N rows of 3 (`reshape(n_atoms, 3)`). -/
def toTriples : List ℝ → List Vec3R
  | a :: b :: c :: t => (a, b, c) :: toTriples t
  | _ => []

/-- One eigenvector column un-mass-weighted into Cartesian displacement rows
(lines 193–198): divide elementwise by `sqrt(np.repeat(masses, 3))`, then
reshape to N×3. -/
noncomputable def cartDisplacement (col : List ℚ) (masses : List ℚ) : List Vec3R :=
  toTriples (List.zipWith (fun c m => (c : ℝ) / Real.sqrt (m : ℝ)) col (massVec masses))

/-- Number of rigid-body modes discarded (line 186): 5 if linear else 6. -/
def modeSkip (n_atoms : ℕ) (eigenvalues : List ℚ) : ℕ :=
  if check_linearity n_atoms eigenvalues then 5 else 6

/-- The body of `compute_normal_modes` downstream of the eigendecomposition
(lines 176–207).  Inputs are the ascending eigenvalue list and the eigenvector
columns returned by `np.linalg.eigh` on the symmetrized mass-weighted Hessian,
plus the looked-up atomic masses.  Returns the retained signed frequencies and
the retained, normalized N×3 displacement matrices. -/
noncomputable def computeNormalModesCore (eigenvalues : List ℚ)
    (eigenvectors : List (List ℚ)) (masses : List ℚ) (n_atoms : ℕ) :
    List ℝ × List (List Vec3R) :=
  let freqs0 := eigenvalues.map freqOfEig
  let n_skip := modeSkip n_atoms eigenvalues
  let freqs := freqs0.drop n_skip
  let eigvecs := eigenvectors.drop n_skip
  let displacements := eigvecs.map (fun col => normalizeMode (cartDisplacement col masses))
  (freqs, displacements)

/-- The structural errors the script can raise while processing one molecule
(the `KeyError` from `ATOMIC_MASSES[z]`, lines 163 and 381). -/
inductive MolError where
  | unmappedAtomicNumber
  deriving DecidableEq, Repr

/-- `compute_normal_modes(hessian, atomic_numbers, n_atoms)` (lines 152–207):
looks up every atomic mass (raising `KeyError` ⇒ `.error` on an unmapped
atomic number, line 163) and then runs the eigen-postprocessing core. -/
noncomputable def computeNormalModes (eigenvalues : List ℚ)
    (eigenvectors : List (List ℚ)) (atomic_numbers : List ℕ) (n_atoms : ℕ) :
    Except MolError (List ℝ × List (List Vec3R)) :=
  match atomic_numbers.mapM massOf with
  | none => .error .unmappedAtomicNumber
  | some masses => .ok (computeNormalModesCore eigenvalues eigenvectors masses n_atoms)

/-- Index a 3-vector by a Cartesian axis `β ∈ {0,1,2}`. -/
def vecGet (v : Vec3R) (β : ℕ) : ℝ :=
  match β with
  | 0 => v.1
  | 1 => v.2.1
  | _ => v.2.2

/-- Index a rational 3-vector by an axis. -/
def vecGetQ (v : Vec3) (β : ℕ) : ℚ :=
  match β with
  | 0 => v.1
  | 1 => v.2.1
  | _ => v.2.2

/-- `dipole_derivs[i, alpha, beta]` on a reshaped 3×3 block. -/
def matGet (m : Mat3) (α β : ℕ) : ℚ :=
  match α with
  | 0 => vecGetQ m.1 β
  | 1 => vecGetQ m.2.1 β
  | _ => vecGetQ m.2.2 β

/-- `compute_ir_intensity(dipole_derivs, displacements_raw, n_atoms)`
(lines 255–273): 0.0 when the dipole-derivative tensor is absent; otherwise
`Σ_α (Σ_i Σ_β ∂μ_α/∂R_iβ · L_iβ)²`. -/
noncomputable def compute_ir_intensity (dipole_derivs : Option (List Mat3))
    (displacements_raw : List Vec3R) (n_atoms : ℕ) : ℝ :=
  match dipole_derivs with
  | none => 0
  | some dd =>
    ∑ α ∈ Finset.range 3,
      (∑ i ∈ Finset.range n_atoms, ∑ β ∈ Finset.range 3,
        (matGet (dd.getD i ((0,0,0),(0,0,0),(0,0,0))) α β : ℝ) *
          vecGet (displacements_raw.getD i (0, 0, 0)) β) ^ 2

/-- Python 3 `round` on an integer-scaled value: round half to even. -/
def bankerRoundQ (y : ℚ) : ℤ :=
  if Int.fract y = 1 / 2 then (if Even ⌊y⌋ then ⌊y⌋ else ⌊y⌋ + 1) else round y

/-- `round(x, k)` on rationals. -/
def pyRoundQ (k : ℕ) (x : ℚ) : ℚ := (bankerRoundQ (x * 10 ^ k) : ℚ) / 10 ^ k

open Classical in
/-- Python 3 `round` (half to even) on idealised reals. -/
noncomputable def bankerRoundR (y : ℝ) : ℤ :=
  if Int.fract y = 1 / 2 then (if Even ⌊y⌋ then ⌊y⌋ else ⌊y⌋ + 1) else round y

/-- `round(x, k)` on idealised reals. -/
noncomputable def pyRoundR (k : ℕ) (x : ℝ) : ℝ := (bankerRoundR (x * 10 ^ k) : ℝ) / 10 ^ k

/-- `center_molecule(positions, masses)` (lines 249–252): subtract the
mass-weighted average position (`np.average(..., weights=masses)`). -/
def center_molecule (positions : List Vec3) (masses : List ℚ) : List Vec3 :=
  let wsum := masses.sum
  let com : Vec3 :=
    (((List.zipWith (fun (p : Vec3) m => p.1 * m) positions masses).sum) / wsum,
     ((List.zipWith (fun (p : Vec3) m => p.2.1 * m) positions masses).sum) / wsum,
     ((List.zipWith (fun (p : Vec3) m => p.2.2 * m) positions masses).sum) / wsum)
  positions.map (fun p => (p.1 - com.1, p.2.1 - com.2.1, p.2.2 - com.2.2))

/-- One formula fragment: element symbol followed by its count when > 1. -/
def formulaPart (syms : List String) (e : String) : String :=
  if syms.count e > 0 then
    e ++ (if syms.count e > 1 then toString (syms.count e) else "")
  else ""

/-- `smiles_to_formula(smiles, atomic_numbers)` (lines 276–292): C and H
first, then the remaining elements alphabetically. -/
def smiles_to_formula (_smiles : String) (atomic_numbers : List ℕ) : String :=
  let syms := atomic_numbers.map symbolOf
  let rest := ((syms.filter (fun s => s ≠ "C" ∧ s ≠ "H")).dedup).insertionSort (· ≤ ·)
  formulaPart syms "C" ++ formulaPart syms "H" ++
    String.join (rest.map (formulaPart syms))

/-- Python slice `l[::s]` for a stride `s ≥ 1`: every `s`-th element,
starting with the first. -/
def downsampleEvery (s : ℕ) : List α → List α
  | [] => []
  | a :: t => a :: downsampleEvery s (t.drop (s - 1))
  termination_by l => l.length
  decreasing_by
    simp only [List.length_cons]
    exact Nat.lt_succ_of_le (List.length_drop _ t ▸ Nat.sub_le _ _)

/-- The downsample stride (`step = 10`, line 333). -/
def SPECTRUM_STRIDE : ℕ := 10

/-- The broadened-spectrum record: wavenumber grid plus IR and Raman curves. -/
structure Spectrum where
  wavenumbers : List ℕ
  ir : List ℚ
  raman : List ℚ
  deriving DecidableEq, Repr

/-- `load_broadened_spectra(mol_index)` (lines 295–342), with the file and
row lookup (pure I/O) abstracted into the two optional row contents: `none`
models a missing file or absent row.  Python's truthiness test
`ir_data[::step] if ir_data else …` substitutes a same-length all-zero curve
when a curve is `None` or empty. -/
def load_broadened_spectra (ir_data raman_data : Option (List ℚ)) : Option Spectrum :=
  match ir_data, raman_data with
  | none, none => none
  | _, _ =>
    let wavenumbers := List.range' 500 3501
    let wn_down := downsampleEvery SPECTRUM_STRIDE wavenumbers
    let ir_down := match ir_data with
      | some (x :: xs) => downsampleEvery SPECTRUM_STRIDE (x :: xs)
      | _ => List.replicate wn_down.length 0
    let raman_down := match raman_data with
      | some (x :: xs) => downsampleEvery SPECTRUM_STRIDE (x :: xs)
      | _ => List.replicate wn_down.length 0
    some ⟨wn_down, ir_down, raman_down⟩

/-- The dipole-derivative slice of `parse_molecule_csv` (lines 116–127): the
parsed numeric rows (index column already skipped) form the tensor only when
they carry at least 9 values per atom (`shape[1] >= 9`, for rectangular rows);
otherwise the tensor is silently `None`.  Each kept row is truncated to its
first 9 values and reshaped to 3×3. -/
def parseDipoleDerivs (rows : List (List ℚ)) : Option (List Mat3) :=
  if 9 ≤ (rows.headD []).length then
    some (rows.map (fun r =>
      ((r.getD 0 0, r.getD 1 0, r.getD 2 0),
       (r.getD 3 0, r.getD 4 0, r.getD 5 0),
       (r.getD 6 0, r.getD 7 0, r.getD 8 0))))
  else none

/-- The parsed per-molecule record produced by `parse_molecule_csv` that
`process_molecule` consumes (the Hessian itself is consumed only by the
external eigensolver and is represented by that solver's results). -/
structure ParsedMol where
  smiles : String
  n_atoms : ℕ
  atomic_numbers : List ℕ
  positions : List Vec3
  dipole_derivs : Option (List Mat3)

/-- One entry of the output `atoms` array (element, rounded centered
coordinates, mass with fallback 1.0). -/
structure Atom where
  element : String
  x : ℚ
  y : ℚ
  z : ℚ
  mass : ℚ
  deriving DecidableEq, Repr

/-- One entry of the output `modes` array. -/
structure Mode where
  index : ℕ
  frequency : ℝ
  ir_intensity : ℝ
  raman_activity : ℝ
  symmetry : String
  displacements : List Vec3R

/-- The per-molecule output JSON record (lines 433–446). -/
structure MolRecord where
  name : String
  formula : String
  smiles : String
  atomCount : ℕ
  atoms : List Atom
  bonds : List Bond
  modes : List Mode
  spectrum : Option Spectrum

open Classical in
/-- Assembly of the `modes` array (lines 417–431): enumerate the retained
frequencies, skip every mode with `freqs[m] < 10` (near-zero rigid-body
noise), index the survivors densely, and round for serialization. -/
noncomputable def buildModes (freqs : List ℝ) (ir_intensities : List ℝ)
    (displacements : List (List Vec3R)) (n_atoms : ℕ) : List Mode :=
  let kept := freqs.enum.filter (fun p => decide (¬ p.2 < 10))
  kept.enum.map (fun q =>
    { index := q.1
      frequency := pyRoundR 1 q.2.2
      ir_intensity := ir_intensities.getD q.2.1 0
      raman_activity := 0
      symmetry := ""
      displacements := (List.range n_atoms).map (fun i =>
        let v := (displacements.getD q.2.1 []).getD i (0, 0, 0)
        (pyRoundR 6 v.1, pyRoundR 6 v.2.1, pyRoundR 6 v.2.2)) })

/-- Everything `process_molecule` reads for one molecule: the parsed CSV
record, the eigendecomposition `np.linalg.eigh` returns for the symmetrized
mass-weighted Hessian (ascending eigenvalues, eigenvector columns), and the
broadened-spectrum rows for the molecule's index. -/
structure MolInput where
  parsed : ParsedMol
  eigenvalues : List ℚ
  eigenvectors : List (List ℚ)
  ir_row : Option (List ℚ)
  raman_row : Option (List ℚ)

/-- `process_molecule(zip_file, mol_index, mol_name)` (lines 345–446).  The
zip lookup is abstracted into the `Option`: `none` means the CSV was not
found, which the script reports with a warning and a `None` return.  A
structural error (unmapped atomic number in the mass lookups of lines 381 and
163) raises, modelled as `.error`; otherwise the full record is assembled. -/
noncomputable def process_molecule (mol_name : String) (found : Option MolInput) :
    Except MolError (Option MolRecord) :=
  match found with
  | none => .ok none
  | some inp =>
    let mol := inp.parsed
    match mol.atomic_numbers.mapM massOf with
    | none => .error .unmappedAtomicNumber
    | some masses =>
      let positions := center_molecule mol.positions masses
      match computeNormalModes inp.eigenvalues inp.eigenvectors mol.atomic_numbers
          mol.n_atoms with
      | .error e => .error e
      | .ok fd =>
        let freqs := fd.1
        let displacements := fd.2
        let bonds := detect_bonds positions mol.atomic_numbers
        let ir_intensities := (List.range freqs.length).map (fun m =>
          pyRoundR 4 (compute_ir_intensity mol.dipole_derivs
            (displacements.getD m []) mol.n_atoms))
        let spectrum := load_broadened_spectra inp.ir_row inp.raman_row
        let formula := smiles_to_formula mol.smiles mol.atomic_numbers
        let atoms := (List.range mol.n_atoms).map (fun i =>
          let p := positions.getD i (0, 0, 0)
          { element := symbolOf (mol.atomic_numbers.getD i 0)
            x := pyRoundQ 6 p.1, y := pyRoundQ 6 p.2.1, z := pyRoundQ 6 p.2.2
            mass := (ATOMIC_MASSES.lookup (mol.atomic_numbers.getD i 0)).getD 1 })
        let modes := buildModes freqs ir_intensities displacements mol.n_atoms
        .ok (some
          { name := mol_name, formula := formula, smiles := mol.smiles
            atomCount := mol.n_atoms, atoms := atoms, bonds := bonds
            modes := modes, spectrum := spectrum })

/-- The batch loop of `main` (lines 467–478): process each target molecule in
order; a `None` result (CSV not found) is skipped and the loop continues; the
loop body has no exception handler, so a raised error propagates and aborts
the whole batch. -/
noncomputable def main_loop : List (String × Option MolInput) →
    Except MolError (List MolRecord)
  | [] => .ok []
  | (mol_name, found) :: rest =>
    match process_molecule mol_name found with
    | .error e => .error e
    | .ok none => main_loop rest
    | .ok (some r) =>
      match main_loop rest with
      | .error e => .error e
      | .ok l => .ok (r :: l)

/-- `Except.isOk`-style discriminator used to state batch outcomes. -/
def isOkE (e : Except MolError (List MolRecord)) : Bool :=
  match e with
  | .ok _ => true
  | .error _ => false

/-- The sorted-by-magnitude eigenvalue list used by `check_linearity`. -/
def sortedAbsEigs (eigenvalues : List ℚ) : List ℚ :=
  (eigenvalues.map (fun e => |e|)).insertionSort (· ≤ ·)

/-- C4: the linearity classification returns linear for every molecule with
N ≤ 2; otherwise, with fewer than 6 eigenvalues it returns linear; otherwise
it returns linear iff the 6th-smallest eigenvalue magnitude (index 5 of the
ascending sort of absolute eigenvalues) is below the 0.001 threshold.  The
final two conjuncts verify that `sortedAbsEigs` really is the ascending
rearrangement of the eigenvalue magnitudes. -/
theorem c4_linearity_classification (n_atoms : ℕ) (eigenvalues : List ℚ) :
    (check_linearity n_atoms eigenvalues = true ↔
      (n_atoms ≤ 2 ∨ eigenvalues.length < 6 ∨
        (sortedAbsEigs eigenvalues).getD 5 0 < 0.001)) ∧
    (sortedAbsEigs eigenvalues).Sorted (· ≤ ·) ∧
    (sortedAbsEigs eigenvalues).Perm (eigenvalues.map (fun e => |e|)) :=
  by
  refine ⟨?_, ?_, ?_⟩
  · have hlen : (sortedAbsEigs eigenvalues).length = eigenvalues.length := by
      simp [sortedAbsEigs, List.length_insertionSort]
    unfold check_linearity
    rcases le_or_lt n_atoms 2 with h2 | h2
    · simp [h2]
    · rcases lt_or_le eigenvalues.length 6 with h6 | h6
      · simp [Nat.not_le.mpr h2, sortedAbsEigs, hlen, h6]
      · have : ¬ (sortedAbsEigs eigenvalues).length < 6 := by omega
        simp only [sortedAbsEigs] at this
        simp [Nat.not_le.mpr h2, this, sortedAbsEigs, Nat.not_lt.mpr h6, Nat.not_le_of_lt h2]
  · exact List.sorted_insertionSort _ _
  · exact List.perm_insertionSort _ _

/-- C5: `compute_ir_intensity` returns exactly 0 when the dipole-derivative
tensor is absent; when present it returns the sum over the three dipole
components of the squared contraction of the tensor with the displacement,
and the result is always nonnegative. -/
theorem c5_ir_intensity (dipole_derivs : Option (List Mat3))
    (displacements_raw : List Vec3R) (n_atoms : ℕ) :
    compute_ir_intensity none displacements_raw n_atoms = 0 ∧
    (∀ dd, dipole_derivs = some dd →
      compute_ir_intensity dipole_derivs displacements_raw n_atoms =
        ∑ α ∈ Finset.range 3,
          (∑ i ∈ Finset.range n_atoms, ∑ β ∈ Finset.range 3,
            (matGet (dd.getD i ((0,0,0),(0,0,0),(0,0,0))) α β : ℝ) *
              vecGet (displacements_raw.getD i (0, 0, 0)) β) ^ 2) ∧
    0 ≤ compute_ir_intensity dipole_derivs displacements_raw n_atoms :=
  by
  refine ⟨rfl, ?_, ?_⟩
  · rintro dd rfl
    rfl
  · cases dipole_derivs with
    | none => exact le_refl 0
    | some dd =>
      exact Finset.sum_nonneg (fun α _ => sq_nonneg _)

/-- Witness for C5 at a concrete one-atom input: the absent-tensor case is 0
and a present tensor contracting to 1 gives intensity 1 ≥ 0. -/
theorem c5_ir_intensity_w :
    compute_ir_intensity none [((1 : ℝ), 0, 0)] 1 = 0 ∧
    compute_ir_intensity (some [(((1 : ℚ), 0, 0), (0, 0, 0), (0, 0, 0))])
      [((1 : ℝ), 0, 0)] 1 = 1 ∧
    (0 : ℝ) ≤ compute_ir_intensity (some [(((1 : ℚ), 0, 0), (0, 0, 0), (0, 0, 0))])
      [((1 : ℝ), 0, 0)] 1 :=
  by
  have h := c5_ir_intensity (some [(((1 : ℚ), 0, 0), (0, 0, 0), (0, 0, 0))])
    [((1 : ℝ), 0, 0)] 1
  refine ⟨h.1, ?_, h.2.2⟩
  rw [h.2.1 _ rfl]
  norm_num [Finset.sum_range_succ, matGet, vecGet, vecGetQ]

/-- Every covalent radius, including the 1.0 Å fallback, is positive. -/
theorem radiusOf_pos (z : ℕ) : 0 < radiusOf z := by
  unfold radiusOf COVALENT_RADII
  simp only [List.lookup]
  repeat' split
  all_goals norm_num

/-- Every reference double-bond length in the table is positive. -/
theorem doubleLengthOf_pos (z1 z2 : ℕ) (d : ℚ) (h : doubleLengthOf z1 z2 = some d) :
    0 < d := by
  unfold doubleLengthOf BOND_LENGTH_DOUBLE at h
  simp only [List.lookup] at h
  repeat' split at h
  all_goals cases h
  all_goals norm_num

/-- The membership characterization of `detect_bonds`, in the executable
squared-distance form: a bond record is produced exactly for the ordered
in-range pairs whose squared distance clears the squared threshold, with the
order given by `estimate_bond_order`. -/
theorem mem_detect_bonds (positions : List Vec3) (atomic_numbers : List ℕ) (b : Bond) :
    b ∈ detect_bonds positions atomic_numbers ↔
      b.atom1 < b.atom2 ∧ b.atom2 < atomic_numbers.length ∧
      distSq (positions.getD b.atom1 (0, 0, 0)) (positions.getD b.atom2 (0, 0, 0)) <
        (radiusOf (atomic_numbers.getD b.atom1 0) + radiusOf (atomic_numbers.getD b.atom2 0)
          + BOND_TOLERANCE) ^ 2 ∧
      b.order = estimate_bond_order (atomic_numbers.getD b.atom1 0)
        (atomic_numbers.getD b.atom2 0)
        (distSq (positions.getD b.atom1 (0, 0, 0)) (positions.getD b.atom2 (0, 0, 0))) := by
  unfold detect_bonds
  constructor
  · intro hb
    rcases List.mem_flatten.mp hb with ⟨l, hl, hbl⟩
    rcases List.mem_map.mp hl with ⟨i, _, rfl⟩
    rcases List.mem_filterMap.mp hbl with ⟨j, hj, hfj⟩
    rcases List.mem_filter.mp hj with ⟨hjr, hij⟩
    have hij' : i < j := by simpa using hij
    have hjn : j < atomic_numbers.length := List.mem_range.mp hjr
    split_ifs at hfj with hcond
    cases hfj
    exact ⟨hij', hjn, hcond, rfl⟩
  · rintro ⟨hij, hj, hcond, horder⟩
    apply List.mem_flatten.mpr
    refine ⟨_, List.mem_map.mpr ⟨b.atom1, List.mem_range.mpr (lt_trans hij hj), rfl⟩, ?_⟩
    apply List.mem_filterMap.mpr
    refine ⟨b.atom2, List.mem_filter.mpr ⟨List.mem_range.mpr hj, by simpa using hij⟩, ?_⟩
    rw [if_pos hcond]
    cases b with
    | mk a1 a2 o =>
      simp only at horder ⊢
      rw [horder]

/-- `estimate_bond_order` returns 2 exactly when a reference double-bond
length exists for the sorted element pair and the squared distance is below
the squared margin-augmented reference; otherwise it returns 1. -/
theorem estimate_bond_order_eq (z1 z2 : ℕ) (dsq : ℚ) :
    (estimate_bond_order z1 z2 dsq = 1 ∨ estimate_bond_order z1 z2 dsq = 2) ∧
    (estimate_bond_order z1 z2 dsq = 2 ↔
      ∃ d, doubleLengthOf z1 z2 = some d ∧ dsq < (d + 0.10) ^ 2) := by
  rcases hd : doubleLengthOf z1 z2 with _ | d
  · simp [estimate_bond_order, hd]
  · have hpos := doubleLengthOf_pos z1 z2 d hd
    have hne : d ≠ 0 := ne_of_gt hpos
    simp only [estimate_bond_order, hd]
    constructor
    · split_ifs <;> simp
    · constructor
      · intro h2
        split_ifs at h2 with hc
        · exact ⟨d, rfl, hc.2⟩
        · exact absurd h2 (by norm_num)
      · rintro ⟨d', hd', hlt⟩
        cases hd'
        rw [if_pos ⟨hne, hlt⟩]

/-- C6: for every pair `i < j` of in-range atom indices, a bond is emitted iff
the interatomic distance is strictly below the sum of the covalent radii
(fallback 1.0 Å) plus the 0.45 Å tolerance; every emitted bond has order 2
precisely when a reference double-bond length exists for the element pair and
the distance is strictly below that reference plus 0.10 Å, and order 1
otherwise. -/
theorem c6_bond_criteria (positions : List Vec3) (atomic_numbers : List ℕ) (i j : ℕ) :
    ((∃ o, (⟨i, j, o⟩ : Bond) ∈ detect_bonds positions atomic_numbers) ↔
      i < j ∧ j < atomic_numbers.length ∧
      dist (positions.getD i (0, 0, 0)) (positions.getD j (0, 0, 0)) <
        ((radiusOf (atomic_numbers.getD i 0) + radiusOf (atomic_numbers.getD j 0)
           + BOND_TOLERANCE : ℚ) : ℝ)) ∧
    (∀ o, (⟨i, j, o⟩ : Bond) ∈ detect_bonds positions atomic_numbers →
      (o = 1 ∨ o = 2) ∧
      (o = 2 ↔ ∃ d, doubleLengthOf (atomic_numbers.getD i 0) (atomic_numbers.getD j 0)
          = some d ∧
        dist (positions.getD i (0, 0, 0)) (positions.getD j (0, 0, 0)) <
          ((d + 0.10 : ℚ) : ℝ))) ∧
    (∀ z, COVALENT_RADII.lookup z = none → radiusOf z = 1) := by
  have hthr : (0 : ℚ) < radiusOf (atomic_numbers.getD i 0)
      + radiusOf (atomic_numbers.getD j 0) + BOND_TOLERANCE := by
    have h1 := radiusOf_pos (atomic_numbers.getD i 0)
    have h2 := radiusOf_pos (atomic_numbers.getD j 0)
    unfold BOND_TOLERANCE
    linarith
  refine ⟨?_, ?_, ?_⟩
  · constructor
    · rintro ⟨o, ho⟩
      rcases (mem_detect_bonds positions atomic_numbers _).mp ho with ⟨hij, hjn, hcond, _⟩
      exact ⟨hij, hjn, (dist_lt_iff _ _ _ hthr).mpr hcond⟩
    · rintro ⟨hij, hjn, hdist⟩
      refine ⟨estimate_bond_order (atomic_numbers.getD i 0) (atomic_numbers.getD j 0)
        (distSq (positions.getD i (0, 0, 0)) (positions.getD j (0, 0, 0))),
        (mem_detect_bonds positions atomic_numbers _).mpr
          ⟨hij, hjn, (dist_lt_iff _ _ _ hthr).mp hdist, rfl⟩⟩
  · intro o ho
    rcases (mem_detect_bonds positions atomic_numbers _).mp ho with ⟨_, _, _, horder⟩
    simp only at horder
    have hest := estimate_bond_order_eq (atomic_numbers.getD i 0) (atomic_numbers.getD j 0)
      (distSq (positions.getD i (0, 0, 0)) (positions.getD j (0, 0, 0)))
    rw [← horder] at hest
    refine ⟨hest.1, hest.2.trans ?_⟩
    constructor
    · rintro ⟨d, hd, hlt⟩
      have hdpos : (0 : ℚ) < d + 0.10 := by
        have := doubleLengthOf_pos _ _ _ hd
        norm_num
        linarith
      exact ⟨d, hd, (dist_lt_iff _ _ _ hdpos).mpr hlt⟩
    · rintro ⟨d, hd, hlt⟩
      have hdpos : (0 : ℚ) < d + 0.10 := by
        have := doubleLengthOf_pos _ _ _ hd
        norm_num
        linarith
      exact ⟨d, hd, (dist_lt_iff _ _ _ hdpos).mp hlt⟩
  · intro z hz
    unfold radiusOf
    rw [hz]
    rfl

/-- Witness for C6: two carbon atoms 1.2 Å apart are bonded with order 2,
and the theorem yields the double-bond criterion concretely
(1.2 < 1.34 + 0.10). -/
theorem c6_bond_criteria_w :
    (⟨0, 1, 2⟩ : Bond) ∈ detect_bonds [(0, 0, 0), (6/5, 0, 0)] [6, 6] ∧
    ∃ d, doubleLengthOf 6 6 = some d ∧
      dist ((0 : ℚ), 0, 0) ((6/5 : ℚ), 0, 0) < ((d + 0.10 : ℚ) : ℝ) := by
  have hr6 : radiusOf 6 = 0.76 := rfl
  have hd66 : doubleLengthOf 6 6 = some 1.34 := rfl
  have heval : detect_bonds [(0, 0, 0), (6/5, 0, 0)] [6, 6] = [⟨0, 1, 2⟩] := by
    norm_num [detect_bonds, List.range_succ, distSq, List.filter_cons,
      List.filterMap_cons, List.getD, estimate_bond_order, hr6, hd66,
      BOND_TOLERANCE]
  have hmem : (⟨0, 1, 2⟩ : Bond) ∈ detect_bonds [(0, 0, 0), (6/5, 0, 0)] [6, 6] := by
    rw [heval]
    exact List.mem_singleton.mpr rfl
  have h := (c6_bond_criteria [(0, 0, 0), (6/5, 0, 0)] [6, 6] 0 1).2.1 2 hmem
  exact ⟨hmem, (h.2.mp rfl).imp (fun d hd => by simpa using hd)⟩

/-- Squared distance is symmetric in its endpoints. -/
theorem distSq_comm (p q : Vec3) : distSq p q = distSq q p := by
  unfold distSq
  ring

/-- `estimate_bond_order` is symmetric in the two elements (the table is
keyed by the sorted pair). -/
theorem estimate_bond_order_comm (z1 z2 : ℕ) (dsq : ℚ) :
    estimate_bond_order z1 z2 dsq = estimate_bond_order z2 z1 dsq := by
  unfold estimate_bond_order doubleLengthOf
  rw [min_comm, max_comm]

/-- `getD` on a `List.ofFn` with an in-range index. -/
theorem getD_ofFn {α : Type _} {n : ℕ} (f : Fin n → α) (k : ℕ) (d : α) (h : k < n) :
    (List.ofFn f).getD k d = f ⟨k, h⟩ := by
  rw [List.getD_eq_getElem _ _ (by simpa using h)]
  simp

/-- Index relabeling induced by a permutation of `Fin n` (identity outside
range, which never occurs for bonds emitted on length-`n` inputs). -/
def relabelIdx (n : ℕ) (τ : Equiv.Perm (Fin n)) (a : ℕ) : ℕ :=
  if h : a < n then (τ ⟨a, h⟩ : ℕ) else a

/-- Relabel a bond's endpoints and re-order them so `atom1 < atom2`. -/
def relabelBond (n : ℕ) (τ : Equiv.Perm (Fin n)) (b : Bond) : Bond :=
  ⟨min (relabelIdx n τ b.atom1) (relabelIdx n τ b.atom2),
   max (relabelIdx n τ b.atom1) (relabelIdx n τ b.atom2), b.order⟩

/-- C9: bond inference is symmetric under atom relabeling.  Applying any
permutation `σ` of the atom indices to both the position list and the
atomic-number list yields exactly the original bond set with `σ⁻¹` applied to
the endpoint indices (each pair re-sorted so `atom1 < atom2`), with identical
bond orders. -/
theorem c9_bond_permutation (n : ℕ) (positions : List Vec3)
    (atomic_numbers : List ℕ) (σ : Equiv.Perm (Fin n))
    (hz : atomic_numbers.length = n) :
    (detect_bonds (List.ofFn (fun k => positions.getD (σ k) (0, 0, 0)))
        (List.ofFn (fun k => atomic_numbers.getD (σ k) 0))).toFinset =
      (detect_bonds positions atomic_numbers).toFinset.image
        (relabelBond n σ.symm) := by
  have hzP : (List.ofFn (fun k => atomic_numbers.getD (σ k) 0)).length = n := by simp
  ext b
  simp only [List.mem_toFinset, Finset.mem_image]
  constructor
  · intro hb
    rcases (mem_detect_bonds _ _ b).mp hb with ⟨hij, hjn, hcond, horder⟩
    rw [hzP] at hjn
    have hin : b.atom1 < n := lt_trans hij hjn
    rw [getD_ofFn _ _ _ hin, getD_ofFn _ _ _ hjn,
        getD_ofFn _ _ _ hin, getD_ofFn _ _ _ hjn] at hcond
    rw [getD_ofFn _ _ _ hin, getD_ofFn _ _ _ hjn,
        getD_ofFn _ _ _ hin, getD_ofFn _ _ _ hjn] at horder
    set a1 : Fin n := σ ⟨b.atom1, hin⟩ with ha1
    set a2 : Fin n := σ ⟨b.atom2, hjn⟩ with ha2
    have hne : (a1 : ℕ) ≠ (a2 : ℕ) := by
      intro h
      have : (⟨b.atom1, hin⟩ : Fin n) = ⟨b.atom2, hjn⟩ :=
        σ.injective (Fin.val_injective h)
      exact absurd (congrArg Fin.val this) (Nat.ne_of_lt hij)
    have hrel1 : relabelIdx n σ.symm (a1 : ℕ) = b.atom1 := by
      unfold relabelIdx
      rw [dif_pos a1.isLt]
      simp [ha1]
    have hrel2 : relabelIdx n σ.symm (a2 : ℕ) = b.atom2 := by
      unfold relabelIdx
      rw [dif_pos a2.isLt]
      simp [ha2]
    rcases lt_or_gt_of_ne hne with hlt | hgt
    · refine ⟨⟨(a1 : ℕ), (a2 : ℕ), b.order⟩, ?_, ?_⟩
      · apply (mem_detect_bonds _ _ _).mpr
        refine ⟨hlt, hz ▸ a2.isLt, hcond, horder⟩
      · unfold relabelBond
        simp only [hrel1, hrel2]
        cases b with
        | mk x y o =>
          simp only [Bond.mk.injEq]
          exact ⟨min_eq_left (le_of_lt hij), max_eq_right (le_of_lt hij), trivial⟩
    · refine ⟨⟨(a2 : ℕ), (a1 : ℕ), b.order⟩, ?_, ?_⟩
      · apply (mem_detect_bonds _ _ _).mpr
        refine ⟨hgt, hz ▸ a1.isLt, ?_, ?_⟩
        · rw [distSq_comm]
          calc distSq (positions.getD (a1 : ℕ) (0, 0, 0))
                (positions.getD (a2 : ℕ) (0, 0, 0))
              < (radiusOf (atomic_numbers.getD (a1 : ℕ) 0)
                  + radiusOf (atomic_numbers.getD (a2 : ℕ) 0) + BOND_TOLERANCE) ^ 2 :=
                hcond
            _ = (radiusOf (atomic_numbers.getD (a2 : ℕ) 0)
                  + radiusOf (atomic_numbers.getD (a1 : ℕ) 0) + BOND_TOLERANCE) ^ 2 := by
                ring
        · rw [estimate_bond_order_comm, distSq_comm]
          exact horder
      · unfold relabelBond
        simp only [hrel1, hrel2]
        cases b with
        | mk x y o =>
          simp only [Bond.mk.injEq]
          exact ⟨min_eq_right (le_of_lt hij), max_eq_left (le_of_lt hij), trivial⟩
  · rintro ⟨B, hB, rfl⟩
    rcases (mem_detect_bonds _ _ B).mp hB with ⟨hij, hjn, hcond, horder⟩
    rw [hz] at hjn
    have hin : B.atom1 < n := lt_trans hij hjn
    have hrel1 : relabelIdx n σ.symm B.atom1 = (σ.symm ⟨B.atom1, hin⟩ : ℕ) := by
      unfold relabelIdx
      rw [dif_pos hin]
    have hrel2 : relabelIdx n σ.symm B.atom2 = (σ.symm ⟨B.atom2, hjn⟩ : ℕ) := by
      unfold relabelIdx
      rw [dif_pos hjn]
    set i1 : Fin n := σ.symm ⟨B.atom1, hin⟩ with hi1
    set i2 : Fin n := σ.symm ⟨B.atom2, hjn⟩ with hi2
    have hne : (i1 : ℕ) ≠ (i2 : ℕ) := by
      intro h
      have : (⟨B.atom1, hin⟩ : Fin n) = ⟨B.atom2, hjn⟩ :=
        σ.symm.injective (Fin.val_injective h)
      exact absurd (congrArg Fin.val this) (Nat.ne_of_lt hij)
    have hback1 : (σ i1 : ℕ) = B.atom1 := by
      rw [hi1]
      simp
    have hback2 : (σ i2 : ℕ) = B.atom2 := by
      rw [hi2]
      simp
    apply (mem_detect_bonds _ _ _).mpr
    unfold relabelBond
    simp only [hrel1, hrel2]
    rcases lt_or_gt_of_ne hne with hlt | hgt
    · have hminmax : min (i1 : ℕ) (i2 : ℕ) = (i1 : ℕ) ∧ max (i1 : ℕ) (i2 : ℕ) = (i2 : ℕ) :=
        ⟨min_eq_left (le_of_lt hlt), max_eq_right (le_of_lt hlt)⟩
      rw [hminmax.1, hminmax.2]
      refine ⟨hlt, by rw [hzP]; exact i2.isLt, ?_, ?_⟩
      · rw [getD_ofFn _ _ _ i1.isLt, getD_ofFn _ _ _ i2.isLt,
            getD_ofFn _ _ _ i1.isLt, getD_ofFn _ _ _ i2.isLt]
        simp only [Fin.eta, hi1, hi2, Equiv.apply_symm_apply]
        exact hcond
      · rw [getD_ofFn _ _ _ i1.isLt, getD_ofFn _ _ _ i2.isLt,
            getD_ofFn _ _ _ i1.isLt, getD_ofFn _ _ _ i2.isLt]
        simp only [Fin.eta, hi1, hi2, Equiv.apply_symm_apply]
        exact horder
    · have hminmax : min (i1 : ℕ) (i2 : ℕ) = (i2 : ℕ) ∧ max (i1 : ℕ) (i2 : ℕ) = (i1 : ℕ) :=
        ⟨min_eq_right (le_of_lt hgt), max_eq_left (le_of_lt hgt)⟩
      rw [hminmax.1, hminmax.2]
      refine ⟨hgt, by rw [hzP]; exact i1.isLt, ?_, ?_⟩
      · rw [getD_ofFn _ _ _ i2.isLt, getD_ofFn _ _ _ i1.isLt,
            getD_ofFn _ _ _ i2.isLt, getD_ofFn _ _ _ i1.isLt]
        simp only [Fin.eta, hi1, hi2, Equiv.apply_symm_apply]
        rw [distSq_comm]
        calc distSq (positions.getD B.atom1 (0, 0, 0)) (positions.getD B.atom2 (0, 0, 0))
            < (radiusOf (atomic_numbers.getD B.atom1 0)
                + radiusOf (atomic_numbers.getD B.atom2 0) + BOND_TOLERANCE) ^ 2 := hcond
          _ = (radiusOf (atomic_numbers.getD B.atom2 0)
                + radiusOf (atomic_numbers.getD B.atom1 0) + BOND_TOLERANCE) ^ 2 := by
              ring
      · rw [getD_ofFn _ _ _ i2.isLt, getD_ofFn _ _ _ i1.isLt,
            getD_ofFn _ _ _ i2.isLt, getD_ofFn _ _ _ i1.isLt]
        simp only [Fin.eta, hi1, hi2, Equiv.apply_symm_apply]
        rw [estimate_bond_order_comm, distSq_comm]
        exact horder

/-- Witness for C9: swapping the two atoms of a bonded O–H pair relabels the
single emitted bond, and the bond set is nonempty (O and H at 1.0 Å bond). -/
theorem c9_bond_permutation_w :
    (⟨0, 1, 1⟩ : Bond) ∈ detect_bonds [(0, 0, 0), (1, 0, 0)] [8, 1] ∧
    (detect_bonds
        (List.ofFn (fun k : Fin 2 =>
          ([((0 : ℚ), 0, 0), (1, 0, 0)] : List Vec3).getD ((Equiv.swap 0 1) k) (0, 0, 0)))
        (List.ofFn (fun k : Fin 2 =>
          ([8, 1] : List ℕ).getD ((Equiv.swap 0 1) k) 0))).toFinset =
      (detect_bonds [((0 : ℚ), 0, 0), (1, 0, 0)] [8, 1]).toFinset.image
        (relabelBond 2 (Equiv.swap 0 1).symm) := by
  constructor
  · have hr8 : radiusOf 8 = 0.66 := rfl
    have hr1 : radiusOf 1 = 0.31 := rfl
    have hd81 : doubleLengthOf 8 1 = none := rfl
    have heval : detect_bonds [((0 : ℚ), 0, 0), (1, 0, 0)] [8, 1] = [⟨0, 1, 1⟩] := by
      norm_num [detect_bonds, List.range_succ, distSq, List.filter_cons,
        List.filterMap_cons, List.getD, estimate_bond_order, hr8, hr1, hd81,
        BOND_TOLERANCE]
    rw [heval]
    exact List.mem_singleton.mpr rfl
  · exact c9_bond_permutation 2 [((0 : ℚ), 0, 0), (1, 0, 0)] [8, 1]
      (Equiv.swap 0 1) rfl

/-- Dividing a displacement row by a positive scalar divides its norm. -/
theorem vnormR_div (v : Vec3R) (M : ℝ) (hM : 0 < M) :
    vnormR (v.1 / M, v.2.1 / M, v.2.2 / M) = vnormR v / M := by
  unfold vnormR
  have h1 : v.1 / M = v.1 / M := rfl
  have hsum : (v.1 / M) ^ 2 + (v.2.1 / M) ^ 2 + (v.2.2 / M) ^ 2 =
      (v.1 ^ 2 + v.2.1 ^ 2 + v.2.2 ^ 2) / M ^ 2 := by
    field_simp
  rw [hsum, Real.sqrt_div' _ (sq_nonneg M), Real.sqrt_sq (le_of_lt hM)]

/-- Dividing every entry of a magnitude list by a positive scalar divides the
folded maximum. -/
theorem maxMag_map_div (l : List ℝ) (M : ℝ) (hM : 0 < M) :
    maxMag (l.map (fun x => x / M)) = maxMag l / M := by
  induction l with
  | nil => simp [maxMag]
  | cons a t ih =>
    simp only [maxMag, List.map_cons, List.foldr_cons] at *
    rw [ih, max_div_div_right (le_of_lt hM)]

/-- The two branches of `normalizeMode`: above the `1e-10` cutoff the maximum
per-atom norm of the output is exactly 1; at or below the cutoff the
displacement matrix is returned unchanged. -/
theorem normalizeMode_spec (disp : List Vec3R) :
    (1e-10 < maxMag (disp.map vnormR) →
      maxMag ((normalizeMode disp).map vnormR) = 1) ∧
    (maxMag (disp.map vnormR) ≤ 1e-10 → normalizeMode disp = disp) := by
  constructor
  · intro h
    have hM : 0 < maxMag (disp.map vnormR) := lt_trans (by norm_num) h
    unfold normalizeMode
    rw [if_pos h]
    rw [List.map_map]
    have hcongr : (vnormR ∘ fun v : Vec3R =>
        (v.1 / maxMag (disp.map vnormR), v.2.1 / maxMag (disp.map vnormR),
         v.2.2 / maxMag (disp.map vnormR))) =
        (fun x => x / maxMag (disp.map vnormR)) ∘ vnormR := by
      funext v
      exact vnormR_div v _ hM
    rw [hcongr, ← List.map_map, maxMag_map_div _ _ hM, div_self (ne_of_gt hM)]
  · intro h
    unfold normalizeMode
    rw [if_neg (not_lt.mpr h)]

/-- C2 (amended): every retained displacement matrix produced by the engine
core is the normalization of a raw (un-mass-weighted) matrix; when the raw
maximum per-atom norm exceeds `1e-10` the output's maximum per-atom norm is
exactly 1, and when it is at or below `1e-10` (the script tests
`max_mag > 1e-10`, so equality falls in this branch) the matrix is left
unchanged. -/
theorem c2_normalization (eigenvalues : List ℚ) (eigenvectors : List (List ℚ))
    (masses : List ℚ) (n_atoms : ℕ) (d : List Vec3R)
    (hd : d ∈ (computeNormalModesCore eigenvalues eigenvectors masses n_atoms).2) :
    ∃ raw, d = normalizeMode raw ∧
      (1e-10 < maxMag (raw.map vnormR) → maxMag (d.map vnormR) = 1) ∧
      (maxMag (raw.map vnormR) ≤ 1e-10 → d = raw) := by
  simp only [computeNormalModesCore, List.mem_map] at hd
  rcases hd with ⟨col, _, rfl⟩
  refine ⟨cartDisplacement col masses, rfl, ?_, ?_⟩
  · exact (normalizeMode_spec _).1
  · exact (normalizeMode_spec _).2

/-- Witness for C2 at a concrete accepted two-atom input (all-zero retained
eigenvector column): the retained mode is the normalization of its raw
matrix, falling in the left-unchanged branch. -/
theorem c2_normalization_w :
    ∃ raw, normalizeMode (cartDisplacement (List.replicate 6 (0 : ℚ)) [1.008, 1.008]) =
        normalizeMode raw ∧
      (1e-10 < maxMag (raw.map vnormR) →
        maxMag ((normalizeMode (cartDisplacement (List.replicate 6 (0 : ℚ))
          [1.008, 1.008])).map vnormR) = 1) ∧
      (maxMag (raw.map vnormR) ≤ 1e-10 →
        normalizeMode (cartDisplacement (List.replicate 6 (0 : ℚ)) [1.008, 1.008]) = raw) := by
  refine c2_normalization (List.replicate 6 0) (List.replicate 6 (List.replicate 6 0))
    [1.008, 1.008] 2 _ ?_
  simp [computeNormalModesCore, modeSkip, check_linearity, List.replicate_succ]

/-- Counterexample for C2 as stated: a retained mode whose raw maximum
per-atom norm is exactly `1e-10` — not *below* the cutoff — is nevertheless
left unchanged by the script (which tests `max_mag > 1e-10`), so its maximum
norm is `1e-10`, not 1. -/
theorem c2_boundary_cex :
    (computeNormalModesCore (List.replicate 6 (0 : ℚ))
        [List.replicate 6 0, List.replicate 6 0, List.replicate 6 0,
         List.replicate 6 0, List.replicate 6 0,
         [92 / 10 ^ 12, 40 / 10 ^ 12, 4 / 10 ^ 12, 0, 0, 0]] [1.008, 1.008] 2).2 =
      [normalizeMode (cartDisplacement
        [92 / 10 ^ 12, 40 / 10 ^ 12, 4 / 10 ^ 12, 0, 0, 0] [1.008, 1.008])] ∧
    maxMag ((cartDisplacement
        [92 / 10 ^ 12, 40 / 10 ^ 12, 4 / 10 ^ 12, 0, 0, 0] [1.008, 1.008]).map vnormR) =
      1e-10 ∧
    normalizeMode (cartDisplacement
        [92 / 10 ^ 12, 40 / 10 ^ 12, 4 / 10 ^ 12, 0, 0, 0] [1.008, 1.008]) =
      cartDisplacement [92 / 10 ^ 12, 40 / 10 ^ 12, 4 / 10 ^ 12, 0, 0, 0] [1.008, 1.008] ∧
    maxMag ((normalizeMode (cartDisplacement
        [92 / 10 ^ 12, 40 / 10 ^ 12, 4 / 10 ^ 12, 0, 0, 0] [1.008, 1.008])).map vnormR) ≠ 1 := by
  have hcast : (0 : ℝ) ≤ ((1.008 : ℚ) : ℝ) := by
    push_cast
    norm_num
  have hcart : cartDisplacement
      [92 / 10 ^ 12, 40 / 10 ^ 12, 4 / 10 ^ 12, 0, 0, 0] [1.008, 1.008] =
      [(((92 / 10 ^ 12 : ℚ) : ℝ) / Real.sqrt ((1.008 : ℚ) : ℝ),
        ((40 / 10 ^ 12 : ℚ) : ℝ) / Real.sqrt ((1.008 : ℚ) : ℝ),
        ((4 / 10 ^ 12 : ℚ) : ℝ) / Real.sqrt ((1.008 : ℚ) : ℝ)),
       (((0 : ℚ) : ℝ) / Real.sqrt ((1.008 : ℚ) : ℝ),
        ((0 : ℚ) : ℝ) / Real.sqrt ((1.008 : ℚ) : ℝ),
        ((0 : ℚ) : ℝ) / Real.sqrt ((1.008 : ℚ) : ℝ))] := by
    simp [cartDisplacement, massVec, toTriples]
  have hnorm1 : vnormR (((92 / 10 ^ 12 : ℚ) : ℝ) / Real.sqrt ((1.008 : ℚ) : ℝ),
      ((40 / 10 ^ 12 : ℚ) : ℝ) / Real.sqrt ((1.008 : ℚ) : ℝ),
      ((4 / 10 ^ 12 : ℚ) : ℝ) / Real.sqrt ((1.008 : ℚ) : ℝ)) = 1e-10 := by
    unfold vnormR
    rw [div_pow, div_pow, div_pow, Real.sq_sqrt hcast, div_add_div_same, div_add_div_same]
    have harg : (((92 / 10 ^ 12 : ℚ) : ℝ) ^ 2 + ((40 / 10 ^ 12 : ℚ) : ℝ) ^ 2 +
        ((4 / 10 ^ 12 : ℚ) : ℝ) ^ 2) / ((1.008 : ℚ) : ℝ) = 1e-20 := by
      push_cast
      norm_num
    rw [harg, show (1e-20 : ℝ) = (1e-10) ^ 2 by norm_num,
      Real.sqrt_sq (by norm_num : (0 : ℝ) ≤ 1e-10)]
  have hnorm2 : vnormR (((0 : ℚ) : ℝ) / Real.sqrt ((1.008 : ℚ) : ℝ),
      ((0 : ℚ) : ℝ) / Real.sqrt ((1.008 : ℚ) : ℝ),
      ((0 : ℚ) : ℝ) / Real.sqrt ((1.008 : ℚ) : ℝ)) = 0 := by
    unfold vnormR
    norm_num
  have hmax : maxMag ((cartDisplacement
      [92 / 10 ^ 12, 40 / 10 ^ 12, 4 / 10 ^ 12, 0, 0, 0] [1.008, 1.008]).map vnormR) =
      1e-10 := by
    rw [hcart]
    simp only [List.map_cons, List.map_nil, hnorm1, hnorm2]
    simp only [maxMag, List.foldr_cons, List.foldr_nil]
    norm_num [max_def]
  have hunch : normalizeMode (cartDisplacement
      [92 / 10 ^ 12, 40 / 10 ^ 12, 4 / 10 ^ 12, 0, 0, 0] [1.008, 1.008]) =
      cartDisplacement [92 / 10 ^ 12, 40 / 10 ^ 12, 4 / 10 ^ 12, 0, 0, 0] [1.008, 1.008] :=
    (normalizeMode_spec _).2 (le_of_eq hmax)
  refine ⟨?_, hmax, hunch, ?_⟩
  · simp [computeNormalModesCore, modeSkip, check_linearity, List.replicate_succ]
  · rw [hunch, hmax]
    norm_num

/-- A molecule classified nonlinear has more than 2 atoms. -/
theorem check_linearity_false_n (n_atoms : ℕ) (eigenvalues : List ℚ)
    (h : check_linearity n_atoms eigenvalues = false) : 2 < n_atoms := by
  by_contra hn
  push_neg at hn
  unfold check_linearity at h
  rw [if_pos hn] at h
  exact Bool.noConfusion h

/-- A molecule classified nonlinear has at least 6 eigenvalues. -/
theorem check_linearity_false_len (n_atoms : ℕ) (eigenvalues : List ℚ)
    (h : check_linearity n_atoms eigenvalues = false) : 6 ≤ eigenvalues.length := by
  by_contra hlen
  push_neg at hlen
  unfold check_linearity at h
  rcases le_or_lt n_atoms 2 with h1 | h1
  · rw [if_pos h1] at h
    exact Bool.noConfusion h
  · rw [if_neg (not_le.mpr h1)] at h
    simp only [List.length_insertionSort, List.length_map] at h
    rw [if_pos hlen] at h
    exact Bool.noConfusion h

/-- C1 (amended): with the 3N eigenvalues and 3N eigenvector columns of a
3N×3N Hessian, the engine core retains exactly 3N − 6 (frequency,
displacement) pairs for a nonlinear molecule and exactly 3N − 5 for a linear
molecule with N ≥ 2; the final conjunct ties the core to `compute_normal_modes`
acceptance (a successful mass lookup).  (For N = 1 — linear by definition —
only min(3N, 5) = 3 modes can be discarded, so 0 pairs are retained, not
3N − 5 = −2; see the counterexample.) -/
theorem c1_retained_mode_count (eigenvalues : List ℚ) (eigenvectors : List (List ℚ))
    (masses : List ℚ) (n_atoms : ℕ) (hev : eigenvalues.length = 3 * n_atoms)
    (hcols : eigenvectors.length = 3 * n_atoms) :
    (check_linearity n_atoms eigenvalues = false →
      ((computeNormalModesCore eigenvalues eigenvectors masses n_atoms).1.length : ℤ) =
        3 * n_atoms - 6 ∧
      ((computeNormalModesCore eigenvalues eigenvectors masses n_atoms).2.length : ℤ) =
        3 * n_atoms - 6) ∧
    (check_linearity n_atoms eigenvalues = true → 2 ≤ n_atoms →
      ((computeNormalModesCore eigenvalues eigenvectors masses n_atoms).1.length : ℤ) =
        3 * n_atoms - 5 ∧
      ((computeNormalModesCore eigenvalues eigenvectors masses n_atoms).2.length : ℤ) =
        3 * n_atoms - 5) ∧
    (∀ atomic_numbers ms, atomic_numbers.mapM massOf = some ms →
      computeNormalModes eigenvalues eigenvectors atomic_numbers n_atoms =
        .ok (computeNormalModesCore eigenvalues eigenvectors ms n_atoms)) := by
  refine ⟨?_, ?_, ?_⟩
  · intro hlin
    have hn := check_linearity_false_n _ _ hlin
    simp only [computeNormalModesCore, modeSkip, hlin, if_false, Bool.false_eq_true,
      List.length_drop, List.length_map, hev, hcols]
    constructor <;>
      · push_cast [Nat.cast_sub (by omega : 6 ≤ 3 * n_atoms)]
        ring
  · intro hlin hn
    simp only [computeNormalModesCore, modeSkip, hlin, if_true,
      List.length_drop, List.length_map, hev, hcols]
    constructor <;>
      · push_cast [Nat.cast_sub (by omega : 5 ≤ 3 * n_atoms)]
        ring
  · intro atomic_numbers ms hms
    unfold computeNormalModes
    rw [hms]

/-- Witness for C1: a nonlinear 3-atom input retains 3·3 − 6 = 3 pairs, a
linear 2-atom input retains 3·2 − 5 = 1 pair, and a mapped atomic-number list
is accepted. -/
theorem c1_retained_mode_count_w :
    check_linearity 3 [0, 0, 0, 0, 0, 1, 1, 1, 1] = false ∧
    ((computeNormalModesCore [0, 0, 0, 0, 0, 1, 1, 1, 1]
        (List.replicate 9 (List.replicate 9 0)) [1.008, 1.008, 1.008] 3).1.length : ℤ) =
      3 * 3 - 6 ∧
    check_linearity 2 (List.replicate 6 0) = true ∧
    ((computeNormalModesCore (List.replicate 6 (0 : ℚ))
        (List.replicate 6 (List.replicate 6 0)) [1.008, 1.008] 2).1.length : ℤ) =
      3 * 2 - 5 ∧
    computeNormalModes (List.replicate 6 (0 : ℚ)) (List.replicate 6 (List.replicate 6 0))
        [1, 1] 2 =
      .ok (computeNormalModesCore (List.replicate 6 (0 : ℚ))
        (List.replicate 6 (List.replicate 6 0)) [1.008, 1.008] 2) := by
  have hlin3 : check_linearity 3 [0, 0, 0, 0, 0, 1, 1, 1, 1] = false := by
    norm_num [check_linearity, List.insertionSort, List.orderedInsert]
  have hlin2 : check_linearity 2 (List.replicate 6 (0 : ℚ)) = true := by
    norm_num [check_linearity]
  have hmap : ([1, 1] : List ℕ).mapM massOf = some [1.008, 1.008] := rfl
  refine ⟨hlin3, ?_, hlin2, ?_, ?_⟩
  · exact ((c1_retained_mode_count [0, 0, 0, 0, 0, 1, 1, 1, 1]
      (List.replicate 9 (List.replicate 9 0)) [1.008, 1.008, 1.008] 3 rfl
      (by simp)).1 hlin3).1
  · exact (((c1_retained_mode_count (List.replicate 6 0)
      (List.replicate 6 (List.replicate 6 0)) [1.008, 1.008] 2 (by simp)
      (by simp)).2.1) hlin2 (by norm_num)).1
  · exact (c1_retained_mode_count (List.replicate 6 0)
      (List.replicate 6 (List.replicate 6 0)) [1.008, 1.008] 2 (by simp)
      (by simp)).2.2 [1, 1] [1.008, 1.008] hmap

/-- Counterexample for C1 as stated: a single-atom molecule (N = 1) is
accepted (its atomic number is mapped) and classified linear, but the engine
retains 0 pairs, whereas the claim demands 3·1 − 5 = −2. -/
theorem c1_single_atom_cex :
    check_linearity 1 [0, 0, 0] = true ∧
    computeNormalModes [0, 0, 0] [[0, 0, 0], [0, 0, 0], [0, 0, 0]] [1] 1 =
      .ok (computeNormalModesCore [0, 0, 0] [[0, 0, 0], [0, 0, 0], [0, 0, 0]] [1.008] 1) ∧
    ((computeNormalModesCore [0, 0, 0] [[0, 0, 0], [0, 0, 0], [0, 0, 0]]
        [1.008] 1).1.length : ℤ) = 0 ∧
    (0 : ℤ) ≠ 3 * 1 - 5 := by
  refine ⟨rfl, rfl, ?_, by norm_num⟩
  simp [computeNormalModesCore, modeSkip, check_linearity]

/-- Banker's rounding never falls below the floor. -/
theorem floor_le_bankerRoundR (y : ℝ) : ⌊y⌋ ≤ bankerRoundR y := by
  unfold bankerRoundR
  split_ifs with h1 h2
  · exact le_refl _
  · exact le_of_lt (lt_add_one _)
  · rw [round_eq]
    exact Int.floor_le_floor (by linarith)

/-- Rounding to one decimal preserves the 10 cm⁻¹ lower bound. -/
theorem pyRoundR_one_ge_ten (x : ℝ) (hx : 10 ≤ x) : 10 ≤ pyRoundR 1 x := by
  unfold pyRoundR
  have h1 : (100 : ℤ) ≤ ⌊x * 10 ^ 1⌋ := by
    apply Int.le_floor.mpr
    push_cast
    nlinarith
  have h2 : (100 : ℤ) ≤ bankerRoundR (x * 10 ^ 1) :=
    le_trans h1 (floor_le_bankerRoundR _)
  have h3 : (100 : ℝ) ≤ (bankerRoundR (x * 10 ^ 1) : ℝ) := by exact_mod_cast h2
  rw [le_div_iff₀ (by norm_num : (0 : ℝ) < (10 : ℝ) ^ 1)]
  linarith

/-- Rounding an exact zero gives zero. -/
theorem pyRoundR_zero (k : ℕ) : pyRoundR k 0 = 0 := by
  unfold pyRoundR bankerRoundR
  rw [zero_mul]
  rw [if_neg (by rw [Int.fract_zero]; norm_num)]
  simp

/-- A rational whose scaled value is an integer is unchanged by rounding. -/
theorem pyRoundQ_eq_self (k : ℕ) (q : ℚ) (n : ℤ) (hn : q * 10 ^ k = (n : ℚ)) :
    pyRoundQ k q = q := by
  unfold pyRoundQ bankerRoundQ
  rw [hn]
  rw [if_neg (by rw [Int.fract_intCast]; norm_num)]
  rw [round_intCast]
  have h10 : ((10 : ℚ) ^ k) ≠ 0 := by positivity
  field_simp
  linarith [hn]

/-- Every mode assembled into the output record has (rounded) frequency at
least 10 cm⁻¹: the `freqs[m] < 10` filter removes all others. -/
theorem buildModes_freq_ge (freqs : List ℝ) (ir_intensities : List ℝ)
    (displacements : List (List Vec3R)) (n_atoms : ℕ) :
    ∀ m ∈ buildModes freqs ir_intensities displacements n_atoms,
      (10 : ℝ) ≤ m.frequency := by
  intro m hm
  unfold buildModes at hm
  rcases List.mem_map.mp hm with ⟨q, hq, rfl⟩
  have hq2 : q.2 ∈ freqs.enum.filter (fun p => decide (¬ p.2 < 10)) := by
    have h := List.mem_enum_iff_getElem?.mp hq
    exact List.getElem?_mem h
  have hcond := (List.mem_filter.mp hq2).2
  have hnot : ¬ q.2.2 < 10 := of_decide_eq_true hcond
  exact pyRoundR_one_ge_ten _ (not_lt.mp hnot)

/-- `getD` on an all-zero list is zero. -/
theorem getD_zero_of_all_zero (l : List ℝ) (h : ∀ x ∈ l, x = 0) (i : ℕ) :
    l.getD i 0 = 0 := by
  rcases lt_or_le i l.length with hi | hi
  · rw [List.getD_eq_getElem _ _ hi]
    exact h _ (List.getElem_mem _)
  · exact List.getD_eq_default _ _ hi

/-- Every mode assembled from an all-zero intensity list carries intensity 0. -/
theorem buildModes_intensity_zero (freqs : List ℝ) (ir_intensities : List ℝ)
    (displacements : List (List Vec3R)) (n_atoms : ℕ)
    (h : ∀ x ∈ ir_intensities, x = 0) :
    ∀ m ∈ buildModes freqs ir_intensities displacements n_atoms,
      m.ir_intensity = 0 := by
  intro m hm
  unfold buildModes at hm
  rcases List.mem_map.mp hm with ⟨q, _, rfl⟩
  exact getD_zero_of_all_zero _ h _

/-- The frequency of the eigenvalue −4 is −2·EV_TO_CM. -/
theorem freqOfEig_neg_four : freqOfEig (-4) = -(((EV_TO_CM : ℚ) : ℝ) * 2) := by
  unfold freqOfEig
  rw [if_neg (by norm_num)]
  have : |((-4 : ℚ) : ℝ)| = (4 : ℝ) := by
    push_cast
    norm_num
  rw [this, show (4 : ℝ) = 2 ^ 2 by norm_num, Real.sqrt_sq (by norm_num : (0 : ℝ) ≤ 2)]

/-- The frequency of the eigenvalue 1 is EV_TO_CM itself. -/
theorem freqOfEig_one : freqOfEig 1 = ((EV_TO_CM : ℚ) : ℝ) := by
  unfold freqOfEig
  rw [if_pos (by norm_num)]
  have : |((1 : ℚ) : ℝ)| = (1 : ℝ) := by
    push_cast
    norm_num
  rw [this, Real.sqrt_one, mul_one]

/-- EV_TO_CM as a real number exceeds 10. -/
theorem ev_to_cm_gt_ten : (10 : ℝ) ≤ ((EV_TO_CM : ℚ) : ℝ) := by
  rw [EV_TO_CM]
  push_cast
  norm_num

/-- The −4 eigenvalue's frequency is negative (hence below the 10 cm⁻¹ cut). -/
theorem freqOfEig_neg_four_neg : freqOfEig (-4) < 0 := by
  rw [freqOfEig_neg_four]
  have := ev_to_cm_gt_ten
  nlinarith

/-- An all-zero eigenvector column yields an all-zero displacement matrix for
a two-atom molecule. -/
theorem cart_zero_two :
    cartDisplacement [0, 0, 0, 0, 0, 0] [1.008, 1.008] =
      [((0 : ℝ), 0, 0), ((0 : ℝ), 0, 0)] := by
  simp [cartDisplacement, massVec, toTriples]

/-- Normalizing the all-zero two-row displacement matrix leaves it unchanged. -/
theorem normalize_zero_two :
    normalizeMode [((0 : ℝ), 0, 0), ((0 : ℝ), 0, 0)] = [((0 : ℝ), 0, 0), ((0 : ℝ), 0, 0)] := by
  apply (normalizeMode_spec _).2
  have hv : vnormR ((0 : ℝ), 0, 0) = 0 := by
    unfold vnormR
    norm_num
  simp only [List.map_cons, List.map_nil, hv, maxMag, List.foldr_cons, List.foldr_nil]
  norm_num [max_def]

/-- Centering the concrete two-proton input puts the atoms at ±5 Å. -/
theorem center_two :
    center_molecule [((0 : ℚ), 0, 0), (10, 0, 0)] [1.008, 1.008] =
      [((-5 : ℚ), 0, 0), (5, 0, 0)] := by
  norm_num [center_molecule]

/-- The two protons 10 Å apart are not bonded. -/
theorem bonds_two :
    detect_bonds [((-5 : ℚ), 0, 0), (5, 0, 0)] [1, 1] = [] := by
  have hr1 : radiusOf 1 = 0.31 := rfl
  norm_num [detect_bonds, List.range_succ, distSq, List.filter_cons,
    List.filterMap_cons, List.getD, hr1, BOND_TOLERANCE]

/-- The molecular formula of the two-proton system. -/
theorem formula_two : smiles_to_formula "" [1, 1] = "H2" := rfl

/-- A concrete two-proton molecule (10 Å apart, so no bonds) whose six
eigenvalues are all −4: its single retained mode has a negative frequency. -/
def exMolA : MolInput :=
  { parsed := { smiles := "", n_atoms := 2, atomic_numbers := [1, 1]
                positions := [(0, 0, 0), (10, 0, 0)], dipole_derivs := none }
    eigenvalues := [-4, -4, -4, -4, -4, -4]
    eigenvectors := List.replicate 6 [0, 0, 0, 0, 0, 0]
    ir_row := none, raman_row := none }

/-- The record the pipeline produces for `exMolA`: its negative-frequency
retained mode has been dropped, leaving no modes at all. -/
noncomputable def exRecA : MolRecord :=
  { name := "exA", formula := "H2", smiles := "", atomCount := 2
    atoms := [{ element := "H", x := -5, y := 0, z := 0, mass := 1.008 },
              { element := "H", x := 5, y := 0, z := 0, mass := 1.008 }]
    bonds := [], modes := [], spectrum := none }

/-- Evaluation of the engine core on `exMolA`'s eigen-data. -/
theorem exMolA_core :
    computeNormalModesCore [-4, -4, -4, -4, -4, -4]
        (List.replicate 6 [0, 0, 0, 0, 0, 0]) [1.008, 1.008] 2 =
      ([freqOfEig (-4)], [[((0 : ℝ), 0, 0), ((0 : ℝ), 0, 0)]]) := by
  unfold computeNormalModesCore modeSkip
  rw [show check_linearity 2 [-4, -4, -4, -4, -4, -4] = true from rfl]
  simp only [if_true, List.map_cons, List.map_nil, List.replicate_succ,
    List.replicate_zero, List.drop_succ_cons, List.drop_zero, cart_zero_two,
    normalize_zero_two]

/-- The spectrum loader returns nothing when both curves are absent. -/
theorem spectra_none : load_broadened_spectra none none = none := rfl

/-- The rounded per-mode intensity list for `exMolA`'s single retained mode
(no dipole data, so intensity 0). -/
theorem exMolA_intensities :
    (List.range 1).map (fun m => pyRoundR 4 (compute_ir_intensity none
      (([[((0 : ℝ), 0, 0), ((0 : ℝ), 0, 0)]] : List (List Vec3R)).getD m []) 2)) = [0] := by
  rw [show List.range 1 = [0] from rfl]
  simp [compute_ir_intensity, pyRoundR_zero]

/-- `exMolA`'s single retained mode is dropped by the `freqs[m] < 10` filter. -/
theorem exMolA_modes :
    buildModes [freqOfEig (-4)] [0] [[((0 : ℝ), 0, 0), ((0 : ℝ), 0, 0)]] 2 = [] := by
  have hlt : freqOfEig (-4) < 10 := lt_trans freqOfEig_neg_four_neg (by norm_num)
  unfold buildModes
  have hdec : (decide (¬ freqOfEig (-4) < 10) : Bool) = false :=
    decide_eq_false (not_not_intro hlt)
  simp [List.filter_cons, hdec, hlt]

/-- The assembled atoms array for the centered two-proton system. -/
theorem exMolA_atoms :
    (List.range 2).map (fun i =>
      ({ element := symbolOf (([1, 1] : List ℕ).getD i 0)
         x := pyRoundQ 6 ((([((-5 : ℚ), 0, 0), (5, 0, 0)] : List Vec3).getD i (0, 0, 0)).1)
         y := pyRoundQ 6 ((([((-5 : ℚ), 0, 0), (5, 0, 0)] : List Vec3).getD i (0, 0, 0)).2.1)
         z := pyRoundQ 6 ((([((-5 : ℚ), 0, 0), (5, 0, 0)] : List Vec3).getD i (0, 0, 0)).2.2)
         mass := (ATOMIC_MASSES.lookup (([1, 1] : List ℕ).getD i 0)).getD 1 } : Atom)) =
      [{ element := "H", x := -5, y := 0, z := 0, mass := 1.008 },
       { element := "H", x := 5, y := 0, z := 0, mass := 1.008 }] := by
  have hx1 : pyRoundQ 6 (-5 : ℚ) = -5 := pyRoundQ_eq_self 6 _ (-5000000) (by norm_num)
  have hx2 : pyRoundQ 6 (5 : ℚ) = 5 := pyRoundQ_eq_self 6 _ 5000000 (by norm_num)
  have hx0 : pyRoundQ 6 (0 : ℚ) = 0 := pyRoundQ_eq_self 6 _ 0 (by norm_num)
  have hsym : symbolOf 1 = "H" := rfl
  have hmass : (ATOMIC_MASSES.lookup 1).getD 1 = 1.008 := rfl
  simp [List.range_succ, List.getD, hx1, hx2, hx0, hsym, hmass]

/-- Full evaluation of the pipeline on `exMolA`. -/
theorem exMolA_eval : process_molecule "exA" (some exMolA) = .ok (some exRecA) := by
  have hstep : process_molecule "exA" (some exMolA) = .ok (some
    { name := "exA"
      formula := smiles_to_formula "" [1, 1]
      smiles := ""
      atomCount := 2
      atoms := (List.range 2).map (fun i =>
        { element := symbolOf (([1, 1] : List ℕ).getD i 0)
          x := pyRoundQ 6 (((center_molecule [(0, 0, 0), (10, 0, 0)]
            [1.008, 1.008]).getD i (0, 0, 0)).1)
          y := pyRoundQ 6 (((center_molecule [(0, 0, 0), (10, 0, 0)]
            [1.008, 1.008]).getD i (0, 0, 0)).2.1)
          z := pyRoundQ 6 (((center_molecule [(0, 0, 0), (10, 0, 0)]
            [1.008, 1.008]).getD i (0, 0, 0)).2.2)
          mass := (ATOMIC_MASSES.lookup (([1, 1] : List ℕ).getD i 0)).getD 1 })
      bonds := detect_bonds (center_molecule [(0, 0, 0), (10, 0, 0)] [1.008, 1.008]) [1, 1]
      modes := buildModes
        (computeNormalModesCore [-4, -4, -4, -4, -4, -4]
          (List.replicate 6 [0, 0, 0, 0, 0, 0]) [1.008, 1.008] 2).1
        ((List.range (computeNormalModesCore [-4, -4, -4, -4, -4, -4]
            (List.replicate 6 [0, 0, 0, 0, 0, 0]) [1.008, 1.008] 2).1.length).map (fun m =>
          pyRoundR 4 (compute_ir_intensity none
            ((computeNormalModesCore [-4, -4, -4, -4, -4, -4]
              (List.replicate 6 [0, 0, 0, 0, 0, 0]) [1.008, 1.008] 2).2.getD m []) 2)))
        (computeNormalModesCore [-4, -4, -4, -4, -4, -4]
          (List.replicate 6 [0, 0, 0, 0, 0, 0]) [1.008, 1.008] 2).2 2
      spectrum := load_broadened_spectra none none }) := rfl
  rw [hstep, exMolA_core, center_two, bonds_two, formula_two, spectra_none]
  simp only [List.length_cons, List.length_nil, Nat.zero_add]
  rw [exMolA_intensities, exMolA_modes, exMolA_atoms]
  rfl

/-- Like `exMolA`, but the last eigenvalue is 1, so the single retained mode
has frequency EV_TO_CM ≥ 10 and survives the near-zero filter. -/
def exMolB : MolInput :=
  { parsed := { smiles := "", n_atoms := 2, atomic_numbers := [1, 1]
                positions := [(0, 0, 0), (10, 0, 0)], dipole_derivs := none }
    eigenvalues := [-4, -4, -4, -4, -4, 1]
    eigenvectors := List.replicate 6 [0, 0, 0, 0, 0, 0]
    ir_row := none, raman_row := none }

/-- The record produced for `exMolB`: one retained mode, intensity 0. -/
noncomputable def exRecB : MolRecord :=
  { name := "exB", formula := "H2", smiles := "", atomCount := 2
    atoms := [{ element := "H", x := -5, y := 0, z := 0, mass := 1.008 },
              { element := "H", x := 5, y := 0, z := 0, mass := 1.008 }]
    bonds := []
    modes := [{ index := 0, frequency := pyRoundR 1 (freqOfEig 1), ir_intensity := 0
                raman_activity := 0, symmetry := ""
                displacements := [((0 : ℝ), 0, 0), ((0 : ℝ), 0, 0)] }]
    spectrum := none }

/-- Evaluation of the engine core on `exMolB`'s eigen-data. -/
theorem exMolB_core :
    computeNormalModesCore [-4, -4, -4, -4, -4, 1]
        (List.replicate 6 [0, 0, 0, 0, 0, 0]) [1.008, 1.008] 2 =
      ([freqOfEig 1], [[((0 : ℝ), 0, 0), ((0 : ℝ), 0, 0)]]) := by
  unfold computeNormalModesCore modeSkip
  rw [show check_linearity 2 [-4, -4, -4, -4, -4, 1] = true from rfl]
  simp only [if_true, List.map_cons, List.map_nil, List.replicate_succ,
    List.replicate_zero, List.drop_succ_cons, List.drop_zero, cart_zero_two,
    normalize_zero_two]

/-- `exMolB`'s retained mode survives the filter and is assembled. -/
theorem exMolB_modes :
    buildModes [freqOfEig 1] [0] [[((0 : ℝ), 0, 0), ((0 : ℝ), 0, 0)]] 2 =
      [{ index := 0, frequency := pyRoundR 1 (freqOfEig 1), ir_intensity := 0
         raman_activity := 0, symmetry := ""
         displacements := [((0 : ℝ), 0, 0), ((0 : ℝ), 0, 0)] }] := by
  have hge : (10 : ℝ) ≤ freqOfEig 1 := freqOfEig_one ▸ ev_to_cm_gt_ten
  unfold buildModes
  have hdec : (decide (¬ freqOfEig 1 < 10) : Bool) = true :=
    decide_eq_true (not_lt.mpr hge)
  simp [List.filter_cons, hdec, hge, List.range_succ, List.getD, pyRoundR_zero]

/-- Full evaluation of the pipeline on `exMolB`. -/
theorem exMolB_eval : process_molecule "exB" (some exMolB) = .ok (some exRecB) := by
  have hstep : process_molecule "exB" (some exMolB) = .ok (some
    { name := "exB"
      formula := smiles_to_formula "" [1, 1]
      smiles := ""
      atomCount := 2
      atoms := (List.range 2).map (fun i =>
        { element := symbolOf (([1, 1] : List ℕ).getD i 0)
          x := pyRoundQ 6 (((center_molecule [(0, 0, 0), (10, 0, 0)]
            [1.008, 1.008]).getD i (0, 0, 0)).1)
          y := pyRoundQ 6 (((center_molecule [(0, 0, 0), (10, 0, 0)]
            [1.008, 1.008]).getD i (0, 0, 0)).2.1)
          z := pyRoundQ 6 (((center_molecule [(0, 0, 0), (10, 0, 0)]
            [1.008, 1.008]).getD i (0, 0, 0)).2.2)
          mass := (ATOMIC_MASSES.lookup (([1, 1] : List ℕ).getD i 0)).getD 1 })
      bonds := detect_bonds (center_molecule [(0, 0, 0), (10, 0, 0)] [1.008, 1.008]) [1, 1]
      modes := buildModes
        (computeNormalModesCore [-4, -4, -4, -4, -4, 1]
          (List.replicate 6 [0, 0, 0, 0, 0, 0]) [1.008, 1.008] 2).1
        ((List.range (computeNormalModesCore [-4, -4, -4, -4, -4, 1]
            (List.replicate 6 [0, 0, 0, 0, 0, 0]) [1.008, 1.008] 2).1.length).map (fun m =>
          pyRoundR 4 (compute_ir_intensity none
            ((computeNormalModesCore [-4, -4, -4, -4, -4, 1]
              (List.replicate 6 [0, 0, 0, 0, 0, 0]) [1.008, 1.008] 2).2.getD m []) 2)))
        (computeNormalModesCore [-4, -4, -4, -4, -4, 1]
          (List.replicate 6 [0, 0, 0, 0, 0, 0]) [1.008, 1.008] 2).2 2
      spectrum := load_broadened_spectra none none }) := rfl
  rw [hstep, exMolB_core, center_two, bonds_two, formula_two, spectra_none]
  simp only [List.length_cons, List.length_nil, Nat.zero_add]
  rw [exMolA_intensities, exMolB_modes, exMolA_atoms]
  rfl

/-- Any successfully produced record carries only modes with (rounded)
frequency at least 10 cm⁻¹. -/
theorem process_molecule_modes_ge_ten (mol_name : String) (inp : MolInput)
    (rec : MolRecord) (h : process_molecule mol_name (some inp) = .ok (some rec)) :
    ∀ m ∈ rec.modes, (10 : ℝ) ≤ m.frequency := by
  simp only [process_molecule] at h
  cases hm : inp.parsed.atomic_numbers.mapM massOf with
  | none =>
    rw [hm] at h
    exact absurd h (by simp)
  | some masses =>
    rw [hm] at h
    simp only [computeNormalModes, hm] at h
    simp only [Except.ok.injEq, Option.some.injEq] at h
    subst h
    exact buildModes_freq_ge _ _ _ _

/-- C3 (amended): the eigenvalue→frequency conversion preserves negative
signs — every negative eigenvalue maps to a strictly negative frequency, and
the engine's retained frequency list is exactly the converted eigenvalue list
with the rigid-body prefix dropped — but `process_molecule` then discards
every mode with frequency below 10 cm⁻¹ from the output record, so negative
frequencies never appear in the produced modes. -/
theorem c3_negative_freq :
    (∀ e : ℚ, e < 0 → freqOfEig e < 0) ∧
    (∀ (eigenvalues : List ℚ) (eigenvectors : List (List ℚ)) (masses : List ℚ)
      (n_atoms : ℕ),
      (computeNormalModesCore eigenvalues eigenvectors masses n_atoms).1 =
        (eigenvalues.map freqOfEig).drop (modeSkip n_atoms eigenvalues)) ∧
    (∀ (mol_name : String) (inp : MolInput) (rec : MolRecord),
      process_molecule mol_name (some inp) = .ok (some rec) →
      ∀ m ∈ rec.modes, (10 : ℝ) ≤ m.frequency) := by
  refine ⟨?_, ?_, process_molecule_modes_ge_ten⟩
  · intro e he
    unfold freqOfEig
    rw [if_neg (not_le.mpr he)]
    have hK : (0 : ℝ) < ((EV_TO_CM : ℚ) : ℝ) := lt_of_lt_of_le (by norm_num) ev_to_cm_gt_ten
    have habs : (0 : ℝ) < |(e : ℝ)| := abs_pos.mpr (by exact_mod_cast ne_of_lt he)
    have hs : 0 < Real.sqrt |(e : ℝ)| := Real.sqrt_pos.mpr habs
    nlinarith
  · intro eigenvalues eigenvectors masses n_atoms
    rfl

/-- Witness for C3 (amended): −1 converts to a negative frequency, and the
mode `exMolB`'s record carries has frequency ≥ 10. -/
theorem c3_negative_freq_w :
    freqOfEig (-1) < 0 ∧ (10 : ℝ) ≤ pyRoundR 1 (freqOfEig 1) := by
  constructor
  · exact c3_negative_freq.1 (-1) (by norm_num)
  · have h := c3_negative_freq.2.2 "exB" exMolB exRecB exMolB_eval
    simpa [exRecB] using h

/-- Counterexample for C3 as stated: `exMolA` is accepted and its single
retained mode has eigenvalue −4 < 0, hence a negative retained frequency, yet
the produced per-molecule record contains no modes at all — the negative
frequency was discarded by the 10 cm⁻¹ cutoff, not preserved. -/
theorem c3_negative_freq_cex :
    (computeNormalModesCore [-4, -4, -4, -4, -4, -4]
        (List.replicate 6 [0, 0, 0, 0, 0, 0]) [1.008, 1.008] 2).1 = [freqOfEig (-4)] ∧
    freqOfEig (-4) < 0 ∧
    process_molecule "exA" (some exMolA) = .ok (some exRecA) ∧
    exRecA.modes = [] := by
  refine ⟨?_, freqOfEig_neg_four_neg, exMolA_eval, rfl⟩
  rw [exMolA_core]

/-- A molecule with an unmapped atomic number (helium, Z = 2): the mass
lookup raises. -/
def exMolBad : MolInput :=
  { parsed := { smiles := "", n_atoms := 1, atomic_numbers := [2]
                positions := [(0, 0, 0)], dipole_derivs := none }
    eigenvalues := [0, 0, 0]
    eigenvectors := [[0, 0, 0], [0, 0, 0], [0, 0, 0]]
    ir_row := none, raman_row := none }

/-- Processing `exMolBad` raises the `KeyError` of line 381. -/
theorem exMolBad_eval :
    process_molecule "bad" (some exMolBad) = .error .unmappedAtomicNumber := rfl

/-- C7 (amended): the batch loop of `main` only handles the missing-CSV case
(a `None` result is skipped and the loop continues).  A structural error
raised while processing a molecule is not caught anywhere, so it propagates
and aborts the whole batch instead of skipping the molecule. -/
theorem c7_batch_error_handling :
    (∀ (mol_name : String) (inp : MolInput) (e : MolError)
      (rest : List (String × Option MolInput)),
      process_molecule mol_name (some inp) = .error e →
      main_loop ((mol_name, some inp) :: rest) = .error e) ∧
    (∀ (mol_name : String) (rest : List (String × Option MolInput)),
      main_loop ((mol_name, none) :: rest) = main_loop rest) := by
  constructor
  · intro mol_name inp e rest h
    unfold main_loop
    rw [h]
  · intro mol_name rest
    rw [main_loop]
    rw [show process_molecule mol_name none = .ok none from rfl]

/-- Witness for C7 (amended): the unmapped-atomic-number molecule aborts a
concrete batch, and a missing CSV is skipped. -/
theorem c7_batch_error_handling_w :
    main_loop [("bad", some exMolBad), ("exB", some exMolB)] =
      .error .unmappedAtomicNumber ∧
    main_loop [("skip", none), ("exB", some exMolB)] =
      main_loop [("exB", some exMolB)] := by
  constructor
  · exact c7_batch_error_handling.1 "bad" exMolBad .unmappedAtomicNumber _ exMolBad_eval
  · exact c7_batch_error_handling.2 "skip" _

/-- Counterexample for C7 as stated: the batch `[exMolBad, exMolB]` aborts
with an error on its first molecule even though the second molecule alone
processes fine — the failing molecule is not skipped and the batch does not
continue. -/
theorem c7_abort_cex :
    main_loop [("bad", some exMolBad), ("exB", some exMolB)] =
      .error .unmappedAtomicNumber ∧
    isOkE (main_loop [("exB", some exMolB)]) = true := by
  have hB : main_loop [("exB", some exMolB)] = .ok [exRecB] := by
    unfold main_loop
    rw [exMolB_eval]
    rfl
  constructor
  · unfold main_loop
    rw [exMolBad_eval]
  · rw [hB]
    rfl

/-- Length of a strided slice: `l[::s]` keeps ⌈|l|/s⌉ elements. -/
theorem downsampleEvery_length {α : Type _} (s : ℕ) (hs : 1 ≤ s) :
    ∀ l : List α, (downsampleEvery s l).length = (l.length + s - 1) / s := by
  intro l
  generalize hn : l.length = n
  induction n using Nat.strong_induction_on generalizing l with
  | _ n ih =>
    subst hn
    cases l with
    | nil =>
      simp only [downsampleEvery, List.length_nil]
      rw [Nat.div_eq_of_lt (by omega)]
    | cons a t =>
      simp only [downsampleEvery, List.length_cons]
      have hdrop : (t.drop (s - 1)).length = t.length - (s - 1) := List.length_drop _ _
      have hlt : (t.drop (s - 1)).length < (a :: t).length := by
        rw [hdrop, List.length_cons]
        omega
      rw [ih _ hlt _ rfl, hdrop]
      rcases Nat.le_total (s - 1) t.length with h | h
      · have h1 : t.length - (s - 1) + s - 1 = t.length := by omega
        have h2 : t.length + 1 + s - 1 = t.length + s := by omega
        rw [h1, h2, Nat.add_div_right _ (by omega)]
      · have h1 : t.length - (s - 1) + s - 1 = s - 1 := by omega
        have h2 : t.length + 1 + s - 1 = t.length + s := by omega
        rw [h1, h2, Nat.add_div_right _ (by omega), Nat.div_eq_of_lt (by omega),
          Nat.div_eq_of_lt (by omega)]

/-- The downsampled wavenumber grid has 351 points. -/
theorem wn_down_length :
    (downsampleEvery SPECTRUM_STRIDE (List.range' 500 3501)).length = 351 := by
  rw [downsampleEvery_length SPECTRUM_STRIDE (by norm_num [SPECTRUM_STRIDE])]
  simp [SPECTRUM_STRIDE, List.length_range']

/-- C8: for dense input curves (one value per grid point of the 500–4000 cm⁻¹
grid, 3501 values), the downsampled spectrum record has IR and Raman curves of
exactly the same length as the downsampled wavenumber grid, and a missing
curve is replaced by a same-length all-zero curve instead of the record being
dropped. -/
theorem c8_spectrum_downsample (ir_data raman_data : Option (List ℚ))
    (hir : ∀ l, ir_data = some l → l.length = 3501)
    (hraman : ∀ l, raman_data = some l → l.length = 3501)
    (hne : ir_data ≠ none ∨ raman_data ≠ none) :
    ∃ spec, load_broadened_spectra ir_data raman_data = some spec ∧
      spec.ir.length = spec.wavenumbers.length ∧
      spec.raman.length = spec.wavenumbers.length ∧
      (ir_data = none → spec.ir = List.replicate spec.wavenumbers.length 0) ∧
      (raman_data = none → spec.raman = List.replicate spec.wavenumbers.length 0) := by
  have hcurve : ∀ l : List ℚ, l.length = 3501 →
      (match some l with
        | some (x :: xs) => downsampleEvery SPECTRUM_STRIDE (x :: xs)
        | _ => List.replicate
            (downsampleEvery SPECTRUM_STRIDE (List.range' 500 3501)).length 0).length =
        (downsampleEvery SPECTRUM_STRIDE (List.range' 500 3501)).length := by
    intro l hl
    cases l with
    | nil => simp at hl
    | cons x xs =>
      simp only []
      rw [wn_down_length,
        downsampleEvery_length SPECTRUM_STRIDE (by norm_num [SPECTRUM_STRIDE]), hl]
      norm_num [SPECTRUM_STRIDE]
  cases ir_data with
  | none =>
    cases raman_data with
    | none => simp at hne
    | some lr =>
      refine ⟨_, rfl, ?_, ?_, ?_, ?_⟩
      · simp [List.length_replicate]
      · exact hcurve lr (hraman lr rfl)
      · intro
        rfl
      · intro hr
        exact absurd hr (by simp)
  | some li =>
    cases raman_data with
    | none =>
      refine ⟨_, rfl, ?_, ?_, ?_, ?_⟩
      · exact hcurve li (hir li rfl)
      · simp [List.length_replicate]
      · intro hi
        exact absurd hi (by simp)
      · intro
        rfl
    | some lr =>
      refine ⟨_, rfl, ?_, ?_, ?_, ?_⟩
      · exact hcurve li (hir li rfl)
      · exact hcurve lr (hraman lr rfl)
      · intro hi
        exact absurd hi (by simp)
      · intro hr
        exact absurd hr (by simp)

/-- Witness for C8: a dense IR curve with an absent Raman curve yields a
record whose three lists all have length 351 and whose Raman curve is the
all-zero substitute. -/
theorem c8_spectrum_downsample_w :
    ∃ spec, load_broadened_spectra (some (List.replicate 3501 1)) none = some spec ∧
      spec.ir.length = spec.wavenumbers.length ∧
      spec.raman.length = spec.wavenumbers.length ∧
      (some (List.replicate 3501 (1 : ℚ)) = none →
        spec.ir = List.replicate spec.wavenumbers.length 0) ∧
      ((none : Option (List ℚ)) = none →
        spec.raman = List.replicate spec.wavenumbers.length 0) := by
  refine c8_spectrum_downsample (some (List.replicate 3501 1)) none ?_ ?_ ?_
  · intro l hl
    cases hl
    exact List.length_replicate 3501 1
  · intro l hl
    exact Option.noConfusion hl
  · left
    exact Option.some_ne_none _

/-- Any molecule whose atomic numbers are all mapped produces a record. -/
theorem process_molecule_ok (mol_name : String) (inp : MolInput) (masses : List ℚ)
    (hm : inp.parsed.atomic_numbers.mapM massOf = some masses) :
    ∃ rec, process_molecule mol_name (some inp) = .ok (some rec) := by
  simp only [process_molecule, computeNormalModes, hm]
  exact ⟨_, rfl⟩

/-- C10: dipole-derivative rows with fewer than 9 numeric values per atom are
silently parsed as an absent tensor; an absent tensor yields IR intensity
exactly 0 for any displacement, every mode of a record produced from an
absent tensor carries `ir_intensity = 0`, and the record is still produced
(the only structural error is an unmapping mass lookup). -/
theorem c10_missing_dipole (rows : List (List ℚ)) (k : ℕ) (hk : k < 9)
    (hrows : ∀ r ∈ rows, r.length = k) :
    parseDipoleDerivs rows = none ∧
    (∀ (displacements_raw : List Vec3R) (n_atoms : ℕ),
      compute_ir_intensity none displacements_raw n_atoms = 0) ∧
    (∀ (mol_name : String) (inp : MolInput) (rec : MolRecord),
      inp.parsed.dipole_derivs = none →
      process_molecule mol_name (some inp) = .ok (some rec) →
      ∀ m ∈ rec.modes, m.ir_intensity = 0) ∧
    (∀ (mol_name : String) (inp : MolInput) (masses : List ℚ),
      inp.parsed.atomic_numbers.mapM massOf = some masses →
      ∃ rec, process_molecule mol_name (some inp) = .ok (some rec)) := by
  refine ⟨?_, fun _ _ => rfl, ?_, fun mol_name inp masses hm =>
    process_molecule_ok mol_name inp masses hm⟩
  · unfold parseDipoleDerivs
    rw [if_neg]
    cases rows with
    | nil =>
      simp
    | cons r t =>
      have := hrows r (List.mem_cons_self r t)
      simp only [List.headD_cons, this]
      omega
  · intro mol_name inp rec hdd h
    simp only [process_molecule] at h
    cases hm : inp.parsed.atomic_numbers.mapM massOf with
    | none =>
      rw [hm] at h
      exact absurd h (by simp)
    | some masses =>
      rw [hm] at h
      simp only [computeNormalModes, hm, hdd] at h
      simp only [Except.ok.injEq, Option.some.injEq] at h
      subst h
      apply buildModes_intensity_zero
      intro x hx
      rcases List.mem_map.mp hx with ⟨m', _, rfl⟩
      rw [show compute_ir_intensity none
        ((computeNormalModesCore inp.eigenvalues inp.eigenvectors masses
          inp.parsed.n_atoms).2.getD m' []) inp.parsed.n_atoms = (0 : ℝ) from rfl]
      exact pyRoundR_zero 4

/-- Witness for C10: one-value dipole rows parse to `none`, a concrete
intensity under an absent tensor is 0, the record produced for `exMolB`
(whose tensor is absent) carries only zero intensities, and `exMolB` is
accepted. -/
theorem c10_missing_dipole_w :
    parseDipoleDerivs [[1], [1]] = none ∧
    compute_ir_intensity none [((1 : ℝ), 0, 0)] 1 = 0 ∧
    exRecB.modes.map Mode.ir_intensity = [0] ∧
    ∃ rec, process_molecule "exB" (some exMolB) = .ok (some rec) := by
  have h := c10_missing_dipole [[1], [1]] 1 (by norm_num) (by
    intro r hr
    simp only [List.mem_cons, List.not_mem_nil, or_false] at hr
    rcases hr with rfl | rfl <;> rfl)
  refine ⟨h.1, h.2.1 _ _, ?_, h.2.2.2 "exB" exMolB [1.008, 1.008] rfl⟩
  have h3 := h.2.2.1 "exB" exMolB exRecB rfl exMolB_eval
  simp only [exRecB] at h3 ⊢
  simp [h3]

end Vibescope
